import Mathlib

/-!
Verification of `src/ubl/infra/secpack/scripts/gen_container_ids.py`.

The script hashes each name of a fixed five-element list with
`hashlib.blake2b(..., digest_size=16)` and prints the resulting
name-to-digest mapping as JSON with two-space indentation.

The BLAKE2b function invoked through `hashlib` is embedded below following
RFC 7693 (unkeyed, no salt, no personalization, sequential mode), which is
the algorithm `hashlib.blake2b` implements.  Bytes are `Nat` values below
256, 64-bit words are `Nat` values reduced modulo `2 ^ 64` at every
arithmetic step.
-/

/-- 64-bit rotate right, on `Nat` reduced modulo `2 ^ 64`. -/
def rotr64 (x n : Nat) : Nat :=
  ((x >>> n) ||| (x <<< (64 - n))) % 2 ^ 64

/-- The BLAKE2b initialization vector (RFC 7693 §2.6). -/
def IV : List Nat :=
  [0x6a09e667f3bcc908, 0xbb67ae8584caa73b, 0x3c6ef372fe94f82b,
   0xa54ff53a5f1d36f1, 0x510e527fade682d1, 0x9b05688c2b3e6c1f,
   0x1f83d9abfb41bd6b, 0x5be0cd19137e2179]

/-- The BLAKE2 message-schedule permutations SIGMA (RFC 7693 §2.7). -/
def SIGMA : List (List Nat) :=
  [[0, 1, 2, 3, 4, 5, 6, 7, 8, 9, 10, 11, 12, 13, 14, 15],
   [14, 10, 4, 8, 9, 15, 13, 6, 1, 12, 0, 2, 11, 7, 5, 3],
   [11, 8, 12, 0, 5, 2, 15, 13, 10, 14, 3, 6, 7, 1, 9, 4],
   [7, 9, 3, 1, 13, 12, 11, 14, 2, 6, 5, 10, 4, 0, 15, 8],
   [9, 0, 5, 7, 2, 4, 10, 15, 14, 1, 11, 12, 6, 8, 3, 13],
   [2, 12, 6, 10, 0, 11, 8, 3, 4, 13, 7, 5, 15, 14, 1, 9],
   [12, 5, 1, 15, 14, 13, 4, 10, 0, 7, 6, 3, 9, 2, 8, 11],
   [13, 11, 7, 14, 12, 1, 3, 9, 5, 0, 15, 4, 8, 6, 2, 10],
   [6, 15, 14, 9, 11, 3, 0, 8, 12, 2, 13, 7, 1, 4, 10, 5],
   [10, 2, 8, 4, 7, 6, 1, 5, 15, 11, 9, 14, 3, 12, 13, 0]]

/-- The BLAKE2b mixing function G (RFC 7693 §3.1) acting on the 16-word
work vector `v` at indices `a b c d` with message words `x y`. -/
def mixG (v : List Nat) (a b c d x y : Nat) : List Nat :=
  let va := (v.getD a 0 + v.getD b 0 + x) % 2 ^ 64
  let vd := rotr64 ((v.getD d 0) ^^^ va) 32
  let vc := (v.getD c 0 + vd) % 2 ^ 64
  let vb := rotr64 ((v.getD b 0) ^^^ vc) 24
  let va2 := (va + vb + y) % 2 ^ 64
  let vd2 := rotr64 (vd ^^^ va2) 16
  let vc2 := (vc + vd2) % 2 ^ 64
  let vb2 := rotr64 (vb ^^^ vc2) 63
  ((((v.set a va2).set b vb2).set c vc2).set d vd2)

/-- One round of the BLAKE2b compression function (RFC 7693 §3.2):
eight G applications scheduled by `SIGMA[r % 10]`. -/
def blakeRound (m : List Nat) (v : List Nat) (r : Nat) : List Nat :=
  let s := SIGMA.getD (r % 10) []
  let mi : Nat → Nat := fun i => m.getD (s.getD i 0) 0
  let v := mixG v 0 4 8 12 (mi 0) (mi 1)
  let v := mixG v 1 5 9 13 (mi 2) (mi 3)
  let v := mixG v 2 6 10 14 (mi 4) (mi 5)
  let v := mixG v 3 7 11 15 (mi 6) (mi 7)
  let v := mixG v 0 5 10 15 (mi 8) (mi 9)
  let v := mixG v 1 6 11 12 (mi 10) (mi 11)
  let v := mixG v 2 7 8 13 (mi 12) (mi 13)
  let v := mixG v 3 4 9 14 (mi 14) (mi 15)
  v

/-- Little-endian interpretation of a byte list as one word. -/
def leWord (bytes : List Nat) : Nat :=
  bytes.foldr (fun b acc => acc * 256 + b) 0

/-- Split a 128-byte block into its 16 little-endian 64-bit words. -/
def blockWords (block : List Nat) : List Nat :=
  (List.range 16).map (fun i => leWord ((block.drop (8 * i)).take 8))

/-- The BLAKE2b compression function F (RFC 7693 §3.2): state `h`
(8 words), message words `m` (16 words), byte counter `t`, final flag. -/
def compress (h : List Nat) (m : List Nat) (t : Nat) (last : Bool) : List Nat :=
  let v := h ++ IV
  let v := v.set 12 ((v.getD 12 0) ^^^ (t % 2 ^ 64))
  let v := v.set 13 ((v.getD 13 0) ^^^ (t / 2 ^ 64 % 2 ^ 64))
  let v := if last then v.set 14 ((v.getD 14 0) ^^^ (2 ^ 64 - 1)) else v
  let v := (List.range 12).foldl (blakeRound m) v
  (List.range 8).map (fun i => (h.getD i 0) ^^^ (v.getD i 0) ^^^ (v.getD (i + 8) 0))

/-- Split the input bytes into 128-byte blocks, the last one zero-padded
to 128 bytes (RFC 7693 §3.3).  An empty input yields one all-zero block.
Structural recursion on a fuel argument standing for the byte count;
each step consumes 128 bytes and one unit of fuel, so `data.length` units
always suffice. -/
def toBlocksF : Nat → List Nat → List (List Nat)
  | 0, data => [data ++ List.replicate (128 - data.length) 0]
  | fuel + 1, data =>
    if data.length ≤ 128 then
      [data ++ List.replicate (128 - data.length) 0]
    else
      data.take 128 :: toBlocksF fuel (data.drop 128)

/-- Split the input bytes into 128-byte blocks, last one zero-padded. -/
def toBlocks (data : List Nat) : List (List Nat) :=
  toBlocksF data.length data

/-- Process the blocks sequentially (RFC 7693 §3.3): each non-final block
is compressed with the running byte counter, the final block with the
total input length and the final flag set. -/
def blake2bCore (h : List Nat) (blocks : List (List Nat)) (t total : Nat) : List Nat :=
  match blocks with
  | [] => h
  | [b] => compress h (blockWords b) total true
  | b :: rest => blake2bCore (compress h (blockWords b) (t + 128) false) rest (t + 128) total

/-- Serialize state words to bytes, little-endian. -/
def wordsToBytesLE (ws : List Nat) : List Nat :=
  (ws.map (fun w => (List.range 8).map (fun j => w >>> (8 * j) % 256))).flatten

/-- BLAKE2b (RFC 7693, unkeyed, digest length `nn` bytes), as computed by
`hashlib.blake2b(data, digest_size=nn)`: the parameter block folds
`0x01010000 ^^^ nn` into `h[0]` (fanout 1, depth 1, key length 0). -/
def blake2b (data : List Nat) (nn : Nat) : List Nat :=
  let h0 := IV.set 0 ((IV.getD 0 0) ^^^ (0x01010000 ^^^ nn))
  (wordsToBytesLE (blake2bCore h0 (toBlocks data) 0 data.length)).take nn

/-- UTF-8 encoding of one Unicode scalar value. -/
def utf8EncodeCp (c : Nat) : List Nat :=
  if c < 0x80 then [c]
  else if c < 0x800 then [0xC0 ||| (c >>> 6), 0x80 ||| (c % 64)]
  else if c < 0x10000 then
    [0xE0 ||| (c >>> 12), 0x80 ||| (c >>> 6 % 64), 0x80 ||| (c % 64)]
  else
    [0xF0 ||| (c >>> 18), 0x80 ||| (c >>> 12 % 64),
     0x80 ||| (c >>> 6 % 64), 0x80 ||| (c % 64)]

/-- UTF-8 encoding of a string, the byte sequence `s.encode()` produces. -/
def utf8Encode (s : String) : List Nat :=
  (s.data.map (fun ch => utf8EncodeCp ch.toNat)).flatten

/-- Lowercase hexadecimal digit for `n % 16`. -/
def hexDigitChar (n : Nat) : Char :=
  if n < 10 then Char.ofNat (48 + n) else Char.ofNat (87 + n)

/-- Two lowercase hex characters of one byte, high nibble first. -/
def hexByte (b : Nat) : List Char :=
  [hexDigitChar (b / 16 % 16), hexDigitChar (b % 16)]

/-- Lowercase hexadecimal rendering of a byte list, as `.hexdigest()`. -/
def hexOfBytes (bs : List Nat) : String :=
  String.mk ((bs.map hexByte).flatten)

/-- `h32` of the source: `blake2b(s.encode(), digest_size=16).hexdigest()`. -/
def h32 (s : String) : String :=
  hexOfBytes (blake2b (utf8Encode s) 16)

/-- The fixed container-name list `CONTAINERS` of the source. -/
def CONTAINERS : List String :=
  ["C.Messenger", "C.Jobs", "C.Office", "C.Policy", "C.Runner"]

/-- The emitted mapping `out = { name: h32(name) for name in CONTAINERS }`:
an ordered association list, as a Python dict preserves insertion order. -/
def out : List (String × String) :=
  CONTAINERS.map (fun name => (name, h32 name))

/-- A `\uXXXX` escape sequence for a code unit `n < 0x10000`. -/
def uEscape (n : Nat) : List Char :=
  [Char.ofNat 92, Char.ofNat 117, hexDigitChar (n >>> 12 % 16),
   hexDigitChar (n >>> 8 % 16), hexDigitChar (n >>> 4 % 16), hexDigitChar (n % 16)]

/-- JSON escaping of one character as `json.dump`'s default `ensure_ascii`
encoder renders it: the two-character shortcuts for quote, backslash and
the common control characters, `\uXXXX` for other characters outside
`0x20`–`0x7E` (a surrogate pair beyond the basic plane), and the character
itself otherwise. -/
def jsonEscapeChar (c : Char) : List Char :=
  let n := c.toNat
  if n = 34 then [Char.ofNat 92, Char.ofNat 34]
  else if n = 92 then [Char.ofNat 92, Char.ofNat 92]
  else if n = 8 then [Char.ofNat 92, Char.ofNat 98]
  else if n = 9 then [Char.ofNat 92, Char.ofNat 116]
  else if n = 10 then [Char.ofNat 92, Char.ofNat 110]
  else if n = 12 then [Char.ofNat 92, Char.ofNat 102]
  else if n = 13 then [Char.ofNat 92, Char.ofNat 114]
  else if n < 32 ∨ 127 ≤ n then
    if n < 0x10000 then uEscape n
    else uEscape (0xD800 + ((n - 0x10000) >>> 10)) ++ uEscape (0xDC00 + (n - 0x10000) % 1024)
  else [c]

/-- Serialization of one string as a JSON string literal. -/
def jsonQuote (s : String) : String :=
  String.mk ((Char.ofNat 34 :: (s.data.map jsonEscapeChar).flatten) ++ [Char.ofNat 34])

/-- `json.dump(m, sys.stdout, indent=2)` for an ordered string-to-string
mapping: keys in mapping order, each entry on its own line indented by two
spaces, entries separated by commas, the closing brace on its own line,
and nothing written after the closing brace. -/
def dumpIndent2 (m : List (String × String)) : String :=
  if m.isEmpty then "\x7b\x7d"
  else
    "\x7b" ++
      String.intercalate "," (m.map (fun p => "\n  " ++ jsonQuote p.1 ++ ": " ++ jsonQuote p.2)) ++
      "\n\x7d"

/-- The bytes the script writes to standard output:
`json.dump(out, sys.stdout, indent=2)`. -/
def stdoutDoc : String := dumpIndent2 out

/-- The whole run as a function of the inputs the operating system could
offer the process.  The source consults none of them: it never reads
`sys.argv`, the environment, or any file (`sys` is imported only for
`sys.stdout`), so the function ignores its arguments. -/
def runScript (_argv : List String) (_env : List (String × String))
    (_files : List (String × List Nat)) : String :=
  stdoutDoc

/-- A Python `str` value: a sequence of Unicode code points below
`0x110000`, including unpaired surrogates, which Python's `str` can hold
but Lean's `String` cannot. -/
abbrev PyStr := List Nat

/-- A code point that is a Unicode scalar value (not a surrogate). -/
def isScalarCp (c : Nat) : Bool :=
  decide (c < 0xD800 ∨ 0xE000 ≤ c)

/-- CPython's `str.encode()` with the default strict UTF-8 codec: raises
`UnicodeEncodeError` when the string contains a surrogate code point
(`codecs` documentation: "surrogates not allowed"), otherwise returns the
UTF-8 bytes. -/
def pyEncodeUtf8 (s : PyStr) : Except String (List Nat) :=
  if s.all isScalarCp then Except.ok ((s.map utf8EncodeCp).flatten)
  else Except.error "UnicodeEncodeError"

/-- `h32` at the Python level, exposing the failure path of
`str.encode()` on strings with lone surrogates. -/
def h32Py (s : PyStr) : Except String String :=
  (pyEncodeUtf8 s).map (fun bs => hexOfBytes (blake2b bs 16))

/-- The sixteen lowercase hexadecimal digit characters. -/
def lowerHexDigits : List Char := "0123456789abcdef".data

/-- Lowercase hexadecimal rendering as the spec words it: each byte of the
digest rendered as its two hexadecimal digit characters, high nibble
first. -/
def specLowerHex (bs : List Nat) : String :=
  String.mk ((bs.map (fun b =>
    [lowerHexDigits.getD (b / 16) (Char.ofNat 48),
     lowerHexDigits.getD (b % 16) (Char.ofNat 48)])).flatten)

/-- Reference definition of the spec's hash pipeline: the UTF-8 encoding
of the name, hashed by BLAKE2b configured to a 16-byte (128-bit) digest,
rendered as lowercase hexadecimal text. -/
def specIdentifier (s : String) : String :=
  specLowerHex (blake2b (utf8Encode s) 16)

set_option maxRecDepth 1000000

/-! ### Shape and range lemmas about the embedded BLAKE2b -/

theorem compress_length (h m : List Nat) (t : Nat) (last : Bool) :
    (compress h m t last).length = 8 := by
  simp [compress]

theorem blake2bCore_length (blocks : List (List Nat)) (h : List Nat) (t total : Nat)
    (hne : blocks ≠ []) : (blake2bCore h blocks t total).length = 8 := by
  induction blocks generalizing h t with
  | nil => exact absurd rfl hne
  | cons b rest ih =>
    cases rest with
    | nil => simp [blake2bCore, compress_length]
    | cons c rest2 =>
      exact ih (compress h (blockWords b) (t + 128) false) (t + 128)
        (List.cons_ne_nil c rest2)

theorem toBlocksF_ne_nil (fuel : Nat) (data : List Nat) : toBlocksF fuel data ≠ [] := by
  cases fuel with
  | zero => simp [toBlocksF]
  | succ n =>
    rw [toBlocksF]
    split <;> simp

theorem toBlocks_ne_nil (data : List Nat) : toBlocks data ≠ [] :=
  toBlocksF_ne_nil data.length data

theorem wordsToBytesLE_length (ws : List Nat) :
    (wordsToBytesLE ws).length = 8 * ws.length := by
  induction ws with
  | nil => rfl
  | cons w rest ih =>
    simp [wordsToBytesLE] at ih ⊢
    omega

theorem blake2b_length (data : List Nat) : (blake2b data 16).length = 16 := by
  have h8 := blake2bCore_length (toBlocks data)
    (IV.set 0 ((IV.getD 0 0) ^^^ (0x01010000 ^^^ 16))) 0 data.length
    (toBlocks_ne_nil data)
  simp at h8
  simp [blake2b, List.length_take, wordsToBytesLE_length, h8]

theorem wordsToBytesLE_lt (ws : List Nat) : ∀ b ∈ wordsToBytesLE ws, b < 256 := by
  intro b hb
  simp [wordsToBytesLE, List.mem_flatten] at hb
  obtain ⟨w, hw, j, hj, hb⟩ := hb
  omega

theorem blake2b_lt (data : List Nat) (nn : Nat) : ∀ b ∈ blake2b data nn, b < 256 := by
  intro b hb
  simp only [blake2b] at hb
  exact wordsToBytesLE_lt _ b (List.mem_of_mem_take hb)

/-! ### Hexadecimal rendering lemmas -/

theorem hexDigitChar_getD : ∀ m < 16,
    hexDigitChar m = lowerHexDigits.getD m (Char.ofNat 48) := by decide

theorem hexDigitChar_mem : ∀ m < 16,
    lowerHexDigits.contains (hexDigitChar m) = true := by decide

theorem hexByte_eq_spec (b : Nat) (hb : b < 256) :
    hexByte b = [lowerHexDigits.getD (b / 16) (Char.ofNat 48),
                 lowerHexDigits.getD (b % 16) (Char.ofNat 48)] := by
  have h1 : b / 16 < 16 := by omega
  have h2 : b % 16 < 16 := Nat.mod_lt b (by norm_num)
  simp [hexByte, Nat.mod_eq_of_lt h1, hexDigitChar_getD (b / 16) h1,
    hexDigitChar_getD (b % 16) h2]

theorem hexChars_eq_spec (bs : List Nat) (h : ∀ b ∈ bs, b < 256) :
    (bs.map hexByte).flatten =
      (bs.map (fun b => [lowerHexDigits.getD (b / 16) (Char.ofNat 48),
                         lowerHexDigits.getD (b % 16) (Char.ofNat 48)])).flatten := by
  induction bs with
  | nil => rfl
  | cons b rest ih =>
    simp only [List.map_cons, List.flatten_cons]
    rw [hexByte_eq_spec b (h b (by simp)), ih (fun x hx => h x (by simp [hx]))]

theorem hexOfBytes_eq_specLowerHex (bs : List Nat) (h : ∀ b ∈ bs, b < 256) :
    hexOfBytes bs = specLowerHex bs :=
  congrArg String.mk (hexChars_eq_spec bs h)

theorem hexOfBytes_length (bs : List Nat) : (hexOfBytes bs).length = 2 * bs.length := by
  simp only [hexOfBytes, String.length]
  induction bs with
  | nil => rfl
  | cons b rest ih =>
    simp [hexByte] at ih ⊢
    omega

theorem hexOfBytes_all_hex (bs : List Nat) :
    (hexOfBytes bs).data.all (fun c => lowerHexDigits.contains c) = true := by
  rw [List.all_eq_true]
  intro c hc
  simp only [hexOfBytes, List.mem_flatten, List.mem_map] at hc
  obtain ⟨l, ⟨b, hb, hl⟩, hcl⟩ := hc
  subst hl
  simp only [hexByte, List.mem_cons, List.not_mem_nil, or_false] at hcl
  rcases hcl with h1 | h2
  · subst h1
    exact hexDigitChar_mem (b / 16 % 16) (Nat.mod_lt _ (by norm_num))
  · subst h2
    exact hexDigitChar_mem (b % 16) (Nat.mod_lt _ (by norm_num))

theorem h32_length (s : String) : (h32 s).length = 32 := by
  rw [h32, hexOfBytes_length, blake2b_length]

set_option maxHeartbeats 4000000

/-! ### Claims -/

/-- C1: for every string `s`, `h32 s` equals the lowercase hexadecimal
rendering of the BLAKE2b digest, configured with a 16-byte (128-bit)
output size, of the UTF-8 encoding of `s` — i.e. the reference definition
`specIdentifier` of the hash pipeline. -/
theorem h32_eq_specIdentifier (s : String) : h32 s = specIdentifier s :=
  hexOfBytes_eq_specLowerHex _ (blake2b_lt _ 16)

/-- C2: the program's output is a constant: whatever command-line
arguments, environment variables, or files are present, the bytes written
to standard output are identical across runs. -/
theorem runScript_constant (a a2 : List String) (e e2 : List (String × String))
    (f f2 : List (String × List Nat)) : runScript a e f = runScript a2 e2 f2 := rfl

/-- C3: for every string `s`, `h32 s` is a string of exactly 32
characters, each a lowercase hexadecimal digit; in particular every
identifier value in the emitted mapping matches this pattern. -/
theorem h32_format (s : String) :
    (h32 s).length = 32 ∧
      (h32 s).data.all (fun c => lowerHexDigits.contains c) = true :=
  ⟨h32_length s, hexOfBytes_all_hex _⟩

/-- C4: the emitted mapping has exactly one entry per name of
`CONTAINERS` (no extra, no missing, no duplicate keys), and each entry's
value is `h32` applied to that entry's key. -/
theorem out_entries :
    out.map Prod.fst = CONTAINERS ∧ (out.map Prod.fst).Nodup ∧
      out.all (fun p => p.2 == h32 p.1) = true := by
  refine ⟨rfl, by decide, ?_⟩
  simp [out, CONTAINERS]

/-- C5: the key order of the emitted mapping equals the declaration order
of the fixed list: `C.Messenger`, `C.Jobs`, `C.Office`, `C.Policy`,
`C.Runner`. -/
theorem out_key_order :
    out.map Prod.fst = ["C.Messenger", "C.Jobs", "C.Office", "C.Policy", "C.Runner"] ∧
      CONTAINERS = ["C.Messenger", "C.Jobs", "C.Office", "C.Policy", "C.Runner"] :=
  ⟨rfl, rfl⟩

/-- C6: the five emitted identifiers — `h32` of each of the five fixed
names, the values of the emitted mapping — are pairwise distinct. -/
theorem out_digests_distinct :
    out.map Prod.snd =
      [h32 "C.Messenger", h32 "C.Jobs", h32 "C.Office", h32 "C.Policy", h32 "C.Runner"] ∧
      (out.map Prod.snd).Nodup :=
  ⟨rfl, by decide⟩

/-- C7: hashing `"C.Messenger"` yields one specific, reproducible
32-hex-character constant; this theorem fixes the conformance value. -/
theorem h32_messenger_value :
    h32 "C.Messenger" = "96fc4e7e0691a83b54577e08f7b58c0b" := by decide

/-- C8, counterexample: `h32` is not failure-free on every string input.
Python's `str` may hold a lone surrogate code point, and on the
one-character string `U+D800` the call `s.encode()` inside `h32` raises
`UnicodeEncodeError` ("surrogates not allowed"), a reachable failure
path. -/
theorem h32Py_surrogate_error :
    h32Py [0xD800] = Except.error "UnicodeEncodeError" := rfl

/-- C8, amended: on every string whose code points are all Unicode scalar
values (no lone surrogates), `h32` returns a 32-character digest with no
failure path, and it is pure. -/
theorem h32Py_total_on_scalars (s : PyStr) (h : s.all isScalarCp = true) :
    ∃ d : String, h32Py s = Except.ok d ∧ d.length = 32 := by
  refine ⟨hexOfBytes (blake2b ((s.map utf8EncodeCp).flatten) 16), ?_, ?_⟩
  · simp [h32Py, pyEncodeUtf8, h, Except.map]
  · rw [hexOfBytes_length, blake2b_length]

/-- Witness for the amended C8 at the concrete three-character string
`"C.M"` (code points 67, 46, 77). -/
theorem h32Py_total_on_scalars_witness :
    ([67, 46, 77] : PyStr).all isScalarCp = true ∧
      ∃ d : String, h32Py [67, 46, 77] = Except.ok d ∧ d.length = 32 :=
  ⟨by decide, h32Py_total_on_scalars [67, 46, 77] (by decide)⟩

/-- C9: the document written to standard output is the serialization of
the ordered mapping as JSON with exactly 2-space indentation, emitted as
one single document; fully evaluated it is the byte string below (the
braces written with `\x7b` and `\x7d` escapes). -/
theorem stdoutDoc_serialization :
    stdoutDoc =
      "\x7b\n  \"C.Messenger\": \"96fc4e7e0691a83b54577e08f7b58c0b\",\n  \"C.Jobs\": \"59a717385c7f55c7c32d6e89a30a9e98\",\n  \"C.Office\": \"d1af0c6508502de08928e448488b7b40\",\n  \"C.Policy\": \"f1577812c9531ccd2a584e6c01cea5b1\",\n  \"C.Runner\": \"86e898b43e21a950d10bc3aacaf953e6\"\n\x7d" := by
  decide

/-- C10: the serialized output ends with the closing brace (code 125) and
no trailing newline: the final character of the standard-output byte
stream is the brace, not a newline (code 10). -/
theorem stdoutDoc_last :
    stdoutDoc.data.getLast? = some (Char.ofNat 125) ∧
      stdoutDoc.data.getLast? ≠ some (Char.ofNat 10) := by
  have h : stdoutDoc.data.getLast? = some (Char.ofNat 125) := by decide
  exact ⟨h, by rw [h]; decide⟩
